import Mathlib

/-!
Verification development for the biov repository's GFF3 layer.

This file gives a shallow embedding, in Lean, of the string-processing and
tabular marshalling code of the repository:

* `quote` / `unquote` — the GFF3 attribute percent codec
  (`src/biov/io/gff.py`, `urllib.parse.unquote` restricted to single-byte
  escapes, which covers the ASCII reserved set used by GFF3);
* the attribute decode/explode logic inside `read_gff3`;
* `read_gff3` / `to_gff3` over a small model of a pandas DataFrame
  (`DFrame`): cells are null (`.na`), strings (`.s`), int64 (`.i`) or
  float64 holding an integral value (`.f`, which is how pandas represents
  an integer column containing nulls);
* `preprocessing` from `src/biov/io/_preprocess.py`.

Python exceptions are modelled with `Except PyErr`; Python `str.split`,
`dict(...)` construction, and pandas column operations are modelled by
executable functions translated clause by clause from the source.
-/

set_option maxRecDepth 4000

/-- Python exception values raised by the code under study. -/
inductive PyErr : Type
  | valueError (msg : String)
  | keyError (key : String)
  | typeError (msg : String)
  | parserError (msg : String)
deriving DecidableEq, Repr

deriving instance DecidableEq for Except

/-- A pandas cell: null (NaN / pd.NA), a string, an int64 value, or a
float64 value that holds an integer (how an integer column with nulls is
stored; it renders with a trailing `.0`). -/
inductive Cell : Type
  | na
  | s (v : String)
  | i (v : Int)
  | f (v : Int)
deriving DecidableEq, Repr

/-- Python `str(v)` on a cell value (pandas renders NaN as `nan`). -/
def pyStr : Cell → String
  | .na => "nan"
  | .s v => v
  | .i v => toString v
  | .f v => toString v ++ ".0"

/-- Model of `pd.isna` on a cell. -/
def cellIsNa : Cell → Bool
  | .na => true
  | _ => false

/-- Value of a decimal digit character, if it is one. -/
def digitVal? (c : Char) : Option Nat :=
  if '0' ≤ c ∧ c ≤ '9' then some (c.toNat - '0'.toNat) else none

/-- Value of a hexadecimal digit character, if it is one (either case). -/
def hexVal? (c : Char) : Option Nat :=
  if '0' ≤ c ∧ c ≤ '9' then some (c.toNat - '0'.toNat)
  else if 'a' ≤ c ∧ c ≤ 'f' then some (c.toNat - 'a'.toNat + 10)
  else if 'A' ≤ c ∧ c ≤ 'F' then some (c.toNat - 'A'.toNat + 10)
  else none

/-- Parse a nonempty all-digit character list as a natural number. -/
def parseNatChars : List Char → Option Nat
  | [] => none
  | cs =>
    cs.foldl
      (fun acc c =>
        match acc, digitVal? c with
        | some n, some d => some (n * 10 + d)
        | _, _ => none)
      (some 0)

/-- Python / pandas integer literal: optional sign then digits. -/
def pyIntLit? (s : String) : Option Int :=
  match s.data with
  | '-' :: rest => (parseNatChars rest).map (fun n => -(n : Int))
  | '+' :: rest => (parseNatChars rest).map (fun n => (n : Int))
  | cs => (parseNatChars cs).map (fun n => (n : Int))

/-- Uppercase hexadecimal rendering of `n` with no zero padding: the model
of Python's `f"%\x7bi:x\x7d".upper()` without the leading percent sign. -/
def hexUpperNoPad (n : Nat) : String :=
  String.mk ((Nat.toDigits 16 n).map Char.toUpper)

/-- Translation of one character under the `str.translate` table built in
`quote` (src/biov/io/gff.py lines 27-38): the five literal entries, plus
`chr(i) ↦ f"%\x7bi:x\x7d".upper()` for `i in range(0x1F)`, i.e. for
`i < 0x1F`.  Characters not in the table pass through unchanged. -/
def quoteChar (c : Char) : String :=
  if c = ';' then "%3B"
  else if c = '=' then "%3D"
  else if c = '&' then "%26"
  else if c = ',' then "%2C"
  else if c.toNat = 0x7F then "%7F"
  else if c.toNat < 0x1F then "%" ++ hexUpperNoPad c.toNat
  else String.singleton c

/-- The GFF-specific `quote` function (src/biov/io/gff.py lines 21-38):
`s.translate` applies the table independently to every character. -/
def quote (s : String) : String :=
  String.join (s.data.map quoteChar)

/-- Character-level model of `urllib.parse.unquote`: a `%` followed by two
hexadecimal digits is replaced by the character with that code; a `%` not
followed by two hex digits is left as-is.  (This is `unquote` restricted
to single-byte escapes; the GFF3 reserved set is pure ASCII so multi-byte
UTF-8 escape sequences do not arise in the code paths studied here.) -/
def unquoteChars : List Char → List Char
  | '%' :: a :: b :: rest =>
    match hexVal? a, hexVal? b with
    | some x, some y => Char.ofNat (16 * x + y) :: unquoteChars rest
    | _, _ => '%' :: unquoteChars (a :: b :: rest)
  | c :: rest => c :: unquoteChars rest
  | [] => []

/-- String-level `urllib.parse.unquote` model. -/
def unquote (s : String) : String :=
  String.mk (unquoteChars s.data)

/-- Python `str.split(sep)` for a one-character separator, at the
character-list level.  `"".split(sep) = [""]` and empty segments are
kept, matching Python. -/
def splitChar (sep : Char) : List Char → List (List Char)
  | [] => [[]]
  | c :: rest =>
    if c = sep then [] :: splitChar sep rest
    else
      match splitChar sep rest with
      | s :: ss => (c :: s) :: ss
      | [] => [[c]]

/-- Python `kv.split("=", maxsplit=1)`: the part before the first `=` and,
if a `=` is present, the part after it (which may itself contain `=`). -/
def splitFirstEq : List Char → List Char × Option (List Char)
  | [] => ([], none)
  | c :: rest =>
    if c = '=' then ([], some rest)
    else
      let (pre, post) := splitFirstEq rest
      (c :: pre, post)

/-- Python `dict` update with one key/value pair: an existing key keeps its
position and gets the new value; a new key is appended. -/
def dictUpdate (d : List (String × String)) (p : String × String) : List (String × String) :=
  if d.any (fun q => q.1 = p.1) then
    d.map (fun q => if q.1 = p.1 then (q.1, p.2) else q)
  else d ++ [p]

/-- Model of `dict(... for kv in attrs.split(";"))` inside `read_gff3`'s
`explode` (src/biov/io/gff.py lines 93-99): each `kv` is split on the
first `=`, both pieces are passed through `unquote`, and a piece list of
length one (no `=` present) makes `dict(...)` raise `ValueError`. -/
def decodePairs (acc : List (String × String)) : List (List Char) → Except PyErr (List (String × String))
  | [] => .ok acc
  | kv :: rest =>
    match splitFirstEq kv with
    | (k, some v) =>
      decodePairs (dictUpdate acc (unquote (String.mk k), unquote (String.mk v))) rest
    | (_, none) =>
      .error (.valueError "dictionary update sequence element #0 has length 1; 2 is required")

/-- The per-cell attribute decoder used by `read_gff3.explode`: a string
cell is split on `;` and decoded; any non-string cell (e.g. NaN from a
`.` field) yields the empty mapping. -/
def decodeAttrs : Cell → Except PyErr (List (String × String))
  | .s v => decodePairs [] (splitChar ';' v.data)
  | _ => .ok []

/-- First-seen order of keys across a list of mappings: the column order
`pd.json_normalize` produces. -/
def firstSeenKeys (dicts : List (List (String × String))) : List String :=
  dicts.foldl
    (fun acc d => d.foldl (fun acc p => if p.1 ∈ acc then acc else acc ++ [p.1]) acc)
    []

/-- A pandas DataFrame model: an ordered list of column names and rows of
cells aligned positionally with the columns. -/
structure DFrame : Type where
  cols : List String
  rows : List (List Cell)
deriving DecidableEq, Repr

/-- Cell of a row at a named column (positional lookup against the column
list; a name not present yields NaN, which the callers below never rely
on except where pandas itself would succeed). -/
def lookupCell : List String → List Cell → String → Cell
  | [], _, _ => .na
  | _, [], _ => .na
  | c :: cs, x :: xs, name => if c = name then x else lookupCell cs xs name

/-- Column selection `df[names]` restricted to the success case: the model
of selecting a list of columns that are all present. -/
def selectSub (df : DFrame) (names : List String) : DFrame :=
  { cols := names, rows := df.rows.map (fun r => names.map (lookupCell df.cols r)) }

/-- The cells of one named column, or `none` when the column is absent. -/
def getColCells (df : DFrame) (name : String) : Option (List Cell) :=
  if name ∈ df.cols then some (df.rows.map (fun r => lookupCell df.cols r name)) else none

/-- Replace, within one row, the cell of the first column matching `name`
by the result of `f` on it (propagating a raised exception). -/
def mapRowAt (f : Cell → Except PyErr Cell) : List String → List Cell → String → Except PyErr (List Cell)
  | _, [], _ => .ok []
  | [], row, _ => .ok row
  | c :: cs, x :: xs, name =>
    if c = name then do
      let x' ← f x
      .ok (x' :: xs)
    else do
      let rest ← mapRowAt f cs xs name
      .ok (x :: rest)

/-- Apply a fallible row transform to every row, short-circuiting on the
first raised exception. -/
def mapRowsE (f : List Cell → Except PyErr (List Cell)) : List (List Cell) → Except PyErr (List (List Cell))
  | [] => .ok []
  | r :: rs => do
    let r' ← f r
    let rs' ← mapRowsE f rs
    .ok (r' :: rs')

/-- Model of `df[name] op= ...` applied cellwise: raises `KeyError` when
the column is absent (pandas `__getitem__`), else maps `f` over it. -/
def mapColE (df : DFrame) (name : String) (f : Cell → Except PyErr Cell) : Except PyErr DFrame :=
  if name ∈ df.cols then do
    let rows' ← mapRowsE (fun r => mapRowAt f df.cols r name) df.rows
    .ok { df with rows := rows' }
  else
    .error (.keyError name)

/-- Replace, within one row, the cell of the first column matching `name`. -/
def replaceAt : List String → List Cell → String → Cell → List Cell
  | _, [], _, _ => []
  | [], row, _, _ => row
  | c :: cs, x :: xs, name, v =>
    if c = name then v :: xs else x :: replaceAt cs xs name v

/-- Column assignment `df[name] = cells`: overwrite an existing column in
place, else append a new one (pandas semantics). -/
def setColList (df : DFrame) (name : String) (cells : List Cell) : DFrame :=
  if name ∈ df.cols then
    { cols := df.cols, rows := df.rows.zipWith (fun r c => replaceAt df.cols r name c) cells }
  else
    { cols := df.cols ++ [name], rows := df.rows.zipWith (fun r c => r ++ [c]) cells }

/-- Column assignment of a broadcast scalar, `df[name] = v`. -/
def setConst (df : DFrame) (name : String) (v : Cell) : DFrame :=
  setColList df name (df.rows.map (fun _ => v))

/-- `pd.concat([a, b], axis=1)` for two frames over the same row index. -/
def hconcat (a b : DFrame) : DFrame :=
  { cols := a.cols ++ b.cols, rows := a.rows.zipWith (· ++ ·) b.rows }

/-- The cells of column `name`, where absence is not possible for the
caller (used for `raw_df[names[-1]]`, whose name is one of the assigned
column names). -/
def getColTotal (df : DFrame) (name : String) : List Cell :=
  df.rows.map (fun r => lookupCell df.cols r name)

/-- Model of `pd.json_normalize` on a list of string-valued mappings:
columns in first-seen key order; a row missing a key gets NaN, not an
empty string. -/
def jsonNormalize (dicts : List (List (String × String))) : DFrame :=
  { cols := firstSeenKeys dicts
    rows := dicts.map (fun d =>
      (firstSeenKeys dicts).map (fun c =>
        match d.lookup c with
        | some v => Cell.s v
        | none => Cell.na)) }

/-- The `explode` helper inside `read_gff3` (src/biov/io/gff.py lines
91-102): decode every attribute cell, `pd.json_normalize` the mappings,
then keep only the produced columns whose names do not collide with the
positional column names. -/
def explodeSeries (names : List String) (attrsCol : List Cell) : Except PyErr DFrame := do
  let dicts ← attrsCol.mapM decodeAttrs
  let attrDf := jsonNormalize dicts
  .ok (selectSub attrDf (attrDf.cols.filter (fun c => c ∉ names)))

/-- The BioDataFrame of the repository: a frame plus the out-of-band
`_gff_columns` list recording which columns are the 9 GFF3 slots. -/
structure BioDataFrame : Type where
  df : DFrame
  gffColumns : List String
deriving DecidableEq, Repr

/-- The canonical GFF3 column names (`GFF_COLUMNS` in src/biov/io/gff.py). -/
def GFF_COLUMNS : List String :=
  ["seqid", "source", "type", "start", "end", "score", "strand", "phase", "attributes"]

/-- The canonical priority tags (`GFF3_ATTRIBUTES` in src/biov/gff.py),
quoted by the spec as the write/explode priority order. -/
def GFF3_ATTRIBUTES : List String :=
  ["ID", "Name", "Alias", "Parent", "Target", "Gap", "Derives_from", "Note",
   "Dbxref", "Ontology_term", "Is_circular"]

/-- Truncate a raw line at the comment character (pandas `comment=...`
discards the rest of the line from the marker on). -/
def truncateComment (commentChar : Char) (cs : List Char) : List Char :=
  cs.takeWhile (fun c => c ≠ commentChar)

/-- Split raw text into data lines: newline-split, comment-truncated,
blank lines skipped (pandas `skip_blank_lines`), then tab-split into
fields. -/
def parseLines (commentChar : Char) (text : String) : List (List String) :=
  (((splitChar '\n' text.data).map (truncateComment commentChar)).filter
      (fun l => l ≠ [])).map
    (fun l => (splitChar '\t' l).map String.mk)

/-- Pandas per-column dtype inference restricted to what the GFF3 reader
exercises: a field equal to the null sentinel (or empty) is NaN; a column
whose remaining fields are all integer literals becomes int64, or float64
when the column also has nulls; anything else stays a string column. -/
def inferColumn (naSent : String) (raw : List String) : List Cell :=
  let isNa := fun f => f = naSent ∨ f = ""
  if raw.all (fun f => isNa f) then
    raw.map (fun _ => Cell.na)
  else if raw.all (fun f => isNa f ∨ (pyIntLit? f).isSome) then
    if raw.any (fun f => isNa f) then
      raw.map (fun f => match pyIntLit? f with | some n => Cell.f n | none => Cell.na)
    else
      raw.map (fun f => match pyIntLit? f with | some n => Cell.i n | none => Cell.na)
  else
    raw.map (fun f => if isNa f then Cell.na else Cell.s f)

/-- Model of `pd.read_table(buffer, names=..., comment=..., na_values=...)`
on in-memory text: rows with more fields than names raise a parser error;
shorter rows are padded with missing fields; dtypes are inferred per
column. -/
def parseTable (commentChar : Char) (naSent : String) (text : String) (names : List String) :
    Except PyErr DFrame :=
  let lines := parseLines commentChar text
  if lines.any (fun fs => names.length < fs.length) then
    .error (.parserError "Error tokenizing data")
  else
    let padded := lines.map (fun fs => fs ++ List.replicate (names.length - fs.length) "")
    let colCells := (List.range names.length).map
      (fun j => inferColumn naSent (padded.map (fun r => r.getD j "")))
    .ok { cols := names
          rows := (List.range lines.length).map
            (fun i => colCells.map (fun col => col.getD i Cell.na)) }

/-- The `raw_df["start"] -= 1` cell operation: int64 and float64 cells are
decremented, NaN propagates, and a string column would raise `TypeError`
as pandas does. -/
def decCellE : Cell → Except PyErr Cell
  | .i n => .ok (.i (n - 1))
  | .f n => .ok (.f (n - 1))
  | .na => .ok .na
  | .s _ => .error (.typeError "unsupported operand type(s) for -=: 'str' and 'int'")

/-- The `gff_df[names[3]] += 1` cell operation (inverse of `decCellE`). -/
def incCellE : Cell → Except PyErr Cell
  | .i n => .ok (.i (n + 1))
  | .f n => .ok (.f (n + 1))
  | .na => .ok .na
  | .s _ => .error (.typeError "unsupported operand type(s) for +=: 'str' and 'int'")

/-- The reading pipeline of `read_gff3` after the keyword validation
(src/biov/io/gff.py lines 88-115), parameterised by the comment character
and null sentinel it is invoked with: parse the table, subtract 1 from the
`start` column, optionally explode the last named column into per-tag
columns, and record the positional column names on the result. -/
def readCore (commentChar : Char) (naSent : String) (text : String) (names : List String)
    (explode_attributes : Bool) : Except PyErr BioDataFrame := do
  let raw ← parseTable commentChar naSent text names
  let raw ← mapColE raw "start" decCellE
  let df ←
    if explode_attributes then do
      let attrDf ← explodeSeries names (getColTotal raw (names.getLastD ""))
      .ok (hconcat (selectSub raw names.dropLast) attrDf)
    else
      .ok raw
  .ok { df := df, gffColumns := names }

/-- The keyword options of `read_gff3` that the claims exercise: whether
the caller supplied `comment` / `na_values` overrides, and an optional
custom `names` list. -/
structure ReadKwargs : Type where
  comment : Option String := none
  na_values : Option String := none
  names : Option (List String) := none
deriving DecidableEq, Repr

/-- No keyword overrides. -/
def noKwargs : ReadKwargs := {}

/-- `read_gff3` (src/biov/io/gff.py lines 54-115) on in-memory text: a
caller-supplied `comment` or `na_values` option raises `ValueError` (the
spec's ConfigError); otherwise the table is read with the comment
character fixed to `#`, the null sentinel fixed to `.`, and the column
names defaulted to `GFF_COLUMNS`. -/
def read_gff3 (text : String) (explode_attributes : Bool) (kwargs : ReadKwargs) :
    Except PyErr BioDataFrame :=
  if kwargs.comment.isSome then
    .error (.valueError "Parameter 'comment' is not allowed")
  else if kwargs.na_values.isSome then
    .error (.valueError "Parameter 'na_values' is not allowed")
  else
    readCore '#' "." text (kwargs.names.getD GFF_COLUMNS) explode_attributes

/-- The `attributes` argument of `to_gff3`: `True` (all non-GFF columns),
a single column name, or an explicit list. -/
inductive AttrSel : Type
  | all
  | one (c : String)
  | chosen (cs : List String)
deriving DecidableEq, Repr

/-- Rendering of one cell by `to_csv(..., na_rep=".")`. -/
def renderCell : Cell → String
  | .na => "."
  | .s v => v
  | .i v => toString v
  | .f v => toString v ++ ".0"

/-- `df.to_csv(sep="\t", na_rep=".", index=False, header=False)`: each row
tab-joined and newline-terminated. -/
def toCsv (df : DFrame) : String :=
  String.join (df.rows.map (fun r => String.intercalate "\t" (r.map renderCell) ++ "\n"))

/-- The write-time defaults of `to_gff3` (src/biov/io/gff.py lines
155-161), keyed by positional slot: `source`→"biov", `type`→"gene",
`score`/`strand`/`phase`→pd.NA, and no default for the other slots. -/
def defaultsFor (c : Nat) : Option Cell :=
  if c = 1 then some (.s "biov")
  else if c = 2 then some (.s "gene")
  else if c = 5 ∨ c = 6 ∨ c = 7 then some .na
  else none

/-- The `for c in range(8)` defaults loop of `to_gff3` (lines 162-167):
a positional column absent from the original data is filled with its
default, or raises `ValueError` when it has none. -/
def applyDefaults (names origCols : List String) : List Nat → DFrame → Except PyErr DFrame
  | [], df => .ok df
  | c :: rest, df =>
    let name := names.getD c ""
    if name ∈ origCols then applyDefaults names origCols rest df
    else
      match defaultsFor c with
      | some cell => applyDefaults names origCols rest (setConst df name cell)
      | none => .error (.valueError ("Column `" ++ name ++ "` is required for exporting to GFF."))

/-- Selection `self[attributes]` raises `KeyError` on a missing column. -/
def checkCols (df : DFrame) (cs : List String) : Except PyErr Unit :=
  match cs.find? (fun c => c ∉ df.cols) with
  | some c => .error (.keyError c)
  | none => .ok ()

/-- One record of `self[attributes].to_dict(orient="records")` rendered to
an attribute string (lines 172-179): iterate the selected columns in the
caller-given order, skip null values, percent-quote tag and stringified
value, join with `;`. -/
def collapseRow (attrs : List String) (row : List Cell) : String :=
  String.intercalate ";"
    (((attrs.zip row).filter (fun p => cellIsNa p.2 = false)).map
      (fun p => quote p.1 ++ "=" ++ quote (pyStr p.2)))

/-- `to_gff3` (src/biov/io/gff.py lines 118-188), returning the GFF3 text
(the `path=None` form).  Faithful step order: the 9-name check, resolution
of the `attributes` selection, `gff_df[names[3]] += 1` (which raises
`KeyError` when that column is absent, before any validation), the
defaults loop over the first 8 slots, projection to `names[:-1]`, then the
attributes column: `pd.NA` for an empty selection, else the collapsed
per-row strings built from the original frame. -/
def to_gff3 (bdf : BioDataFrame) (attributes : AttrSel) : Except PyErr String :=
  let names := bdf.gffColumns
  if names.length ≠ 9 then
    .error (.valueError "Malformed BioDataFrame for export to GFF3.")
  else
    let attrs : List String :=
      match attributes with
      | .all => bdf.df.cols.filter (fun c => c ∉ names)
      | .one c => [c]
      | .chosen cs => cs
    do
      let gff ← mapColE bdf.df (names.getD 3 "") incCellE
      let gff ← applyDefaults names bdf.df.cols (List.range 8) gff
      let gff := selectSub gff names.dropLast
      let gff ←
        if attrs.isEmpty then
          .ok (setConst gff "attributes" Cell.na)
        else do
          checkCols bdf.df attrs
          let recs := selectSub bdf.df attrs
          .ok (setColList gff "attributes" (recs.rows.map (fun r => Cell.s (collapseRow attrs r))))
      .ok ("##gff-version 3\n" ++ toCsv gff)

/-- An input locator for `preprocessing`: a string path/URL, or a
non-string buffer (opaque). -/
inductive Loc : Type
  | str (s : String)
  | buffer (id : Nat)
deriving DecidableEq, Repr

/-- The keyword options `preprocessing` may adjust: presence and value of
the `compression` option (`some none` models `compression=None`). -/
structure PKw : Type where
  compression : Option (Option String) := none
deriving DecidableEq, Repr

/-- Python `str.split("::")` at the character level: left-to-right
non-overlapping scan for two adjacent colons. -/
def splitSep : List Char → List (List Char)
  | [] => [[]]
  | ':' :: ':' :: rest => [] :: splitSep rest
  | c :: rest =>
    match splitSep rest with
    | s :: ss => (c :: s) :: ss
    | [] => [[c]]

/-- `"::".join` at the character level. -/
def joinSep : List (List Char) → List Char
  | [] => []
  | [s] => s
  | s :: rest => s ++ ':' :: ':' :: joinSep rest

/-- Python `s.split("::")` on strings. -/
def pySplitSep (s : String) : List String :=
  (splitSep s.data).map String.mk

/-- Python `"::".join(l)` on strings. -/
def pyJoinSep (l : List String) : String :=
  String.mk (joinSep (l.map String.data))

/-- Python `s.startswith(pre)`, at the character level (the library's
byte-level `String.startsWith` is equivalent but not kernel-reducible). -/
def pyStartsWith (s pre : String) : Bool :=
  pre.data.isPrefixOf s.data

/-- A character list containing no two adjacent colons (every segment that
`splitSep` produces has this shape). -/
def pairFree : List Char → Bool
  | [] => true
  | [_] => true
  | c1 :: c2 :: rest => if c1 = ':' ∧ c2 = ':' then false else pairFree (c2 :: rest)

/-- `preprocessing` (src/biov/io/_preprocess.py lines 6-18): only strings
are inspected; `*protocols, path = s.split("::")`; a `tar://` protocol
segment forces `compression=None`; and when HTTP caching is enabled, the
bare address is an `http(s)://` URL, and `filecache` is not already the
last protocol, `filecache` is inserted immediately before the address. -/
def preprocessing (cacheHttp : Bool) (loc : Loc) (kw : PKw) : Loc × PKw :=
  match loc with
  | .buffer b => (.buffer b, kw)
  | .str s =>
    let parts := pySplitSep s
    let protocols := parts.dropLast
    let path := parts.getLastD ""
    let kw' :=
      if protocols.any (fun p => pyStartsWith p "tar://") then
        { kw with compression := some none }
      else kw
    let loc' :=
      if cacheHttp = true ∧ (pyStartsWith path "https://" ∨ pyStartsWith path "http://") ∧
          (protocols = [] ∨ "filecache" ≠ protocols.getLastD "") then
        Loc.str (pyJoinSep (protocols ++ ["filecache", path]))
      else Loc.str s
    (loc', kw')

/-- Modelled from the spec (§4.4 Path/URL Preprocessor), for comparison
with `preprocessing`: buffers pass through unchanged; a streaming-archive
transport prefix forces off the to-be-inferred decompression option; and
a caching-transport prefix is inserted immediately before the bare address
exactly when HTTP caching is enabled, the final (unprefixed) address
starts with `http://` or `https://`, and the caching transport is not
already the innermost prefix. -/
def preprocessingSpec (cacheHttp : Bool) (loc : Loc) (kw : PKw) : Loc × PKw :=
  match loc with
  | .buffer b => (.buffer b, kw)
  | .str s =>
    let segments := pySplitSep s
    let transports := segments.dropLast
    let address := segments.getLastD ""
    let kw' :=
      if transports.any (fun p => pyStartsWith p "tar://") then
        { kw with compression := some none }
      else kw
    let loc' :=
      if cacheHttp = true ∧ (pyStartsWith address "https://" ∨ pyStartsWith address "http://") ∧
          transports.getLast? ≠ some "filecache" then
        Loc.str (pyJoinSep (transports ++ ["filecache", address]))
      else Loc.str s
    (loc', kw')

/-- A raw attribute string assembled from key/value pairs: `k=v` joined
with `;` (the claim-side description of a well-formed attribute string,
used to state the decode contract). -/
def joinPairsChars : List (String × String) → List Char
  | [] => []
  | [p] => p.1.data ++ '=' :: p.2.data
  | p :: rest => p.1.data ++ '=' :: p.2.data ++ ';' :: joinPairsChars rest

/-- String-level `joinPairsChars`. -/
def joinPairs (parts : List (String × String)) : String :=
  String.mk (joinPairsChars parts)

/-- The end-to-end example input of the spec (§8). -/
def sampleText : String :=
  "##gff-version 3\nchr1\t.\tgene\t100\t200\t.\t+\t.\tID=gene1;Name=TestGene;Dbxref=NCBI:123\n"

/-- The column ordering the claim asserts for explode: the canonical
priority tags first, in their fixed order, then the remaining tags in
first-seen order.  (Stated from the claim, for comparison with what the
code produces.) -/
def claimPriorityOrder (tags : List String) : List String :=
  GFF3_ATTRIBUTES.filter (fun t => t ∈ tags) ++ tags.filter (fun t => t ∉ GFF3_ATTRIBUTES)

/-- C1 counterexample: reading the spec's example line with
`explode_attributes=False` and writing with the default attribute
selection does NOT reproduce the original line: the raw `attributes`
column is one of the 9 positional columns, so `attributes=True` selects
no columns and the writer emits `.` in the attributes field. -/
theorem c1_counterexample :
    (read_gff3 sampleText false noKwargs).bind (fun b => to_gff3 b .all) =
      .ok "##gff-version 3\nchr1\t.\tgene\t100\t200\t.\t+\t.\t.\n" ∧
    "##gff-version 3\nchr1\t.\tgene\t100\t200\t.\t+\t.\t.\n" ≠ sampleText := by
  constructor
  · rfl
  · decide

/-- C1 amended: reading the example line with `explode_attributes=False`
yields one row with internal `start=99`, `end=200` and the unmodified
attributes string; the byte-identical round trip holds through the
exploded path: reading with `explode_attributes=True` (the default) and
writing with `attributes=True` reproduces the original text exactly. -/
theorem c1_roundtrip_amended :
    read_gff3 sampleText false noKwargs =
      .ok ⟨⟨GFF_COLUMNS,
            [[Cell.s "chr1", Cell.na, Cell.s "gene", Cell.i 99, Cell.i 200, Cell.na,
              Cell.s "+", Cell.na, Cell.s "ID=gene1;Name=TestGene;Dbxref=NCBI:123"]]⟩,
           GFF_COLUMNS⟩ ∧
    (read_gff3 sampleText true noKwargs).bind (fun b => to_gff3 b .all) = .ok sampleText := by
  constructor
  · rfl
  · rfl

/-- C2: the `quote` table handles the five literal reserved characters and
DEL as the claim states, but (a) control characters 0x00–0x0F are
replaced by ONE-hex-digit escapes (`f"%\x7bi:x\x7d"` has no zero padding),
e.g. `chr(0) ↦ "%0"` and `chr(10) ↦ "%A"`, not `"%00"`/`"%0A"`, and
(b) `range(0x1F)` stops at 0x1E, so the control character 0x1F is not
replaced at all. -/
theorem c2_quote_control_chars :
    quote ";" = "%3B" ∧ quote "=" = "%3D" ∧ quote "&" = "%26" ∧ quote "," = "%2C" ∧
    quote (String.mk [Char.ofNat 0x7F]) = "%7F" ∧
    quote (String.mk [Char.ofNat 0x1E]) = "%1E" ∧
    quote (String.mk [Char.ofNat 0]) = "%0" ∧
    quote (String.mk [Char.ofNat 0]) ≠ "%00" ∧
    quote (String.mk [Char.ofNat 10]) = "%A" ∧
    quote (String.mk [Char.ofNat 10]) ≠ "%0A" ∧
    quote (String.mk [Char.ofNat 0x1F]) = String.mk [Char.ofNat 0x1F] := by
  refine ⟨rfl, rfl, rfl, rfl, rfl, rfl, rfl, by decide, rfl, by decide, rfl⟩

/-- C4 counterexample: exploding the single attribute string
`"Name=x;ID=y"` produces the column order `["Name", "ID"]` — the
first-seen order of `pd.json_normalize` — whereas the claimed canonical
priority ordering would put `ID` first. -/
theorem c4_counterexample :
    explodeSeries GFF_COLUMNS [Cell.s "Name=x;ID=y"] =
      .ok ⟨["Name", "ID"], [[Cell.s "x", Cell.s "y"]]⟩ ∧
    claimPriorityOrder ["Name", "ID"] = ["ID", "Name"] ∧
    (["Name", "ID"] : List String) ≠ ["ID", "Name"] := by
  refine ⟨rfl, rfl, by decide⟩

/-- C7: write-time validation of `to_gff3`.  The 9-name requirement and
the defaults hold as claimed, and a missing `seqid` or `end` raises
`ValueError` — but a missing `start` column raises `KeyError` from
`gff_df[names[3]] += 1`, which runs BEFORE the validation loop, not the
documented `ValueError`. -/
theorem c7_write_validation :
    to_gff3 ⟨⟨GFF_COLUMNS, []⟩, ["a"]⟩ .all =
      .error (.valueError "Malformed BioDataFrame for export to GFF3.") ∧
    to_gff3 ⟨⟨["seqid", "end"], [[Cell.s "chr1", Cell.i 200]]⟩, GFF_COLUMNS⟩ .all =
      .error (.keyError "start") ∧
    to_gff3 ⟨⟨["start", "end"], [[Cell.i 99, Cell.i 200]]⟩, GFF_COLUMNS⟩ .all =
      .error (.valueError "Column `seqid` is required for exporting to GFF.") ∧
    to_gff3 ⟨⟨["seqid", "start"], [[Cell.s "chr1", Cell.i 99]]⟩, GFF_COLUMNS⟩ .all =
      .error (.valueError "Column `end` is required for exporting to GFF.") ∧
    to_gff3 ⟨⟨["seqid", "start", "end"], [[Cell.s "chr1", Cell.i 99, Cell.i 200]]⟩,
        GFF_COLUMNS⟩ .all =
      .ok "##gff-version 3\nchr1\tbiov\tgene\t100\t200\t.\t.\t.\t.\n" := by
  refine ⟨rfl, rfl, rfl, rfl, rfl⟩

theorem splitSep_ne_nil : ∀ cs : List Char, splitSep cs ≠ [] := by
  intro cs
  induction cs using splitSep.induct with
  | case1 => simp [splitSep.eq_1]
  | case2 rest ih => rw [splitSep.eq_2]; simp
  | case3 c rest h s ss hsplit ih => rw [splitSep.eq_3 c rest h, hsplit]; simp
  | case4 c rest h hsplit ih => exact absurd hsplit ih

theorem splitSep_head : ∀ (cs : List Char) (d : Char) (s : List Char) (ss : List (List Char)),
    splitSep cs = (d :: s) :: ss → cs.head? = some d := by
  intro cs
  induction cs using splitSep.induct with
  | case1 =>
    intro d s ss h
    rw [splitSep.eq_1] at h
    simp at h
  | case2 rest ih =>
    intro d s ss h
    rw [splitSep.eq_2] at h
    simp at h
  | case3 c rest h s ss hsplit ih =>
    intro d s' ss' heq
    rw [splitSep.eq_3 c rest h, hsplit] at heq
    obtain ⟨h1, -⟩ := List.cons.injEq _ _ _ _ ▸ heq
    obtain ⟨h2, -⟩ := List.cons.injEq _ _ _ _ ▸ h1
    simp [h2]
  | case4 c rest h hsplit ih =>
    exact absurd hsplit (splitSep_ne_nil rest)

theorem splitSep_nil_head : ∀ (cs : List Char) (s : List Char) (ss : List (List Char)),
    splitSep cs = [] :: s :: ss → cs.head? = some ':' := by
  intro cs
  induction cs using splitSep.induct with
  | case1 =>
    intro s ss h
    rw [splitSep.eq_1] at h
    simp at h
  | case2 rest ih =>
    intro s ss h
    rfl
  | case3 c rest h s ss hsplit ih =>
    intro s' ss' heq
    rw [splitSep.eq_3 c rest h, hsplit] at heq
    simp at heq
  | case4 c rest h hsplit ih =>
    exact absurd hsplit (splitSep_ne_nil rest)

theorem pairFree_tail (c : Char) (cs : List Char) (h : pairFree (c :: cs) = true) :
    pairFree cs = true := by
  cases cs with
  | nil => rfl
  | cons d r =>
    rw [show pairFree (c :: d :: r) = if c = ':' ∧ d = ':' then false else pairFree (d :: r) from rfl] at h
    split at h
    · exact absurd h (by simp)
    · exact h

theorem splitSep_pairFree : ∀ (cs : List Char), ∀ seg ∈ splitSep cs, pairFree seg = true := by
  intro cs
  induction cs using splitSep.induct with
  | case1 =>
    intro seg hm
    rw [splitSep.eq_1] at hm
    simp at hm
    simp [hm, pairFree]
  | case2 rest ih =>
    intro seg hm
    rw [splitSep.eq_2] at hm
    rcases List.mem_cons.mp hm with h1 | h2
    · simp [h1, pairFree]
    · exact ih seg h2
  | case3 c rest h s ss hsplit ih =>
    intro seg hm
    rw [splitSep.eq_3 c rest h, hsplit] at hm
    rcases List.mem_cons.mp hm with h1 | h2
    · subst h1
      cases s with
      | nil => rfl
      | cons d s' =>
        have hd : rest.head? = some d := splitSep_head rest d s' ss hsplit
        have hpf : pairFree (d :: s') = true := ih _ (by rw [hsplit]; exact List.mem_cons_self _ _)
        rw [show pairFree (c :: d :: s') = if c = ':' ∧ d = ':' then false else pairFree (d :: s') from rfl]
        split
        · rename_i hcd
          obtain ⟨hc, hdd⟩ := hcd
          cases rest with
          | nil => simp at hd
          | cons r0 r' =>
            have : r0 = d := by simpa using hd
            exact (h r' hc (by rw [this, hdd])).elim
        · exact hpf
    · exact ih seg (by rw [hsplit]; exact List.mem_cons_of_mem _ h2)
  | case4 c rest h hsplit ih =>
    exact absurd hsplit (splitSep_ne_nil rest)

theorem splitSep_dropLast_getLast :
    ∀ (cs : List Char), ∀ seg ∈ (splitSep cs).dropLast, seg.getLast? ≠ some ':' := by
  intro cs
  induction cs using splitSep.induct with
  | case1 =>
    intro seg hm
    rw [splitSep.eq_1] at hm
    simp at hm
  | case2 rest ih =>
    intro seg hm
    rw [splitSep.eq_2] at hm
    rcases List.exists_cons_of_ne_nil (splitSep_ne_nil rest) with ⟨s0, ss0, hrw⟩
    rw [hrw, List.dropLast_cons_of_ne_nil (by simp)] at hm
    rcases List.mem_cons.mp hm with h1 | h2
    · simp [h1]
    · exact ih seg (by rw [hrw]; exact h2)
  | case3 c rest h s ss hsplit ih =>
    intro seg hm
    rw [splitSep.eq_3 c rest h, hsplit] at hm
    cases ss with
    | nil => simp at hm
    | cons s2 ss' =>
      rw [List.dropLast_cons_of_ne_nil (by simp)] at hm
      rcases List.mem_cons.mp hm with h1 | h2
      · subst h1
        cases s with
        | nil =>
          have hhead : rest.head? = some ':' := splitSep_nil_head rest s2 ss' hsplit
          cases rest with
          | nil => simp at hhead
          | cons r0 r' =>
            have hr0 : r0 = ':' := by simpa using hhead
            intro hc
            have hc' : c = ':' := by simpa using hc
            exact h r' hc' (by rw [hr0])
        | cons d s' =>
          rw [List.getLast?_cons_cons]
          exact ih (d :: s') (by
            rw [hsplit, List.dropLast_cons_of_ne_nil (by simp)]
            exact List.mem_cons_self _ _)
      · exact ih seg (by
          rw [hsplit, List.dropLast_cons_of_ne_nil (by simp)]
          exact List.mem_cons_of_mem _ h2)
  | case4 c rest h hsplit ih =>
    exact absurd hsplit (splitSep_ne_nil rest)

theorem splitSep_of_pairFree : ∀ (cs : List Char), pairFree cs = true → splitSep cs = [cs] := by
  intro cs
  induction cs using splitSep.induct with
  | case1 => intro _; rfl
  | case2 rest ih =>
    intro hpf
    rw [show pairFree (':' :: ':' :: rest) = if (':' : Char) = ':' ∧ (':' : Char) = ':' then false else pairFree (':' :: rest) from rfl] at hpf
    simp at hpf
  | case3 c rest h s ss hsplit ih =>
    intro hpf
    have : splitSep rest = [rest] := ih (pairFree_tail c rest hpf)
    rw [splitSep.eq_3 c rest h, hsplit]
    rw [this] at hsplit
    obtain ⟨h1, h2⟩ := by simpa using hsplit
    rw [h1, h2]
  | case4 c rest h hsplit ih =>
    exact absurd hsplit (splitSep_ne_nil rest)

theorem splitSep_append_sep :
    ∀ (a u : List Char), pairFree a = true → a.getLast? ≠ some ':' →
      splitSep (a ++ ':' :: ':' :: u) = a :: splitSep u := by
  intro a
  induction a using pairFree.induct with
  | case1 =>
    intro u _ _
    rw [List.nil_append, splitSep.eq_2]
  | case2 c =>
    intro u _ hlast
    have hc : c ≠ ':' := by
      intro hc
      exact hlast (by simp [hc])
    rw [List.cons_append, List.nil_append]
    rw [splitSep.eq_3 c (':' :: ':' :: u) (by
      intro r' hceq _
      exact hc hceq)]
    rw [splitSep.eq_2]
  | case3 c1 c2 rest hcc =>
    intro u hpf _
    rw [show pairFree (c1 :: c2 :: rest) = if c1 = ':' ∧ c2 = ':' then false else pairFree (c2 :: rest) from rfl] at hpf
    rw [if_pos hcc] at hpf
    simp at hpf
  | case4 c1 c2 rest hcc ih =>
    intro u hpf hlast
    rw [show pairFree (c1 :: c2 :: rest) = if c1 = ':' ∧ c2 = ':' then false else pairFree (c2 :: rest) from rfl] at hpf
    rw [if_neg hcc] at hpf
    have hlast2 : (c2 :: rest).getLast? ≠ some ':' := by
      rw [List.getLast?_cons_cons] at hlast
      exact hlast
    have hrec := ih u hpf hlast2
    rw [List.cons_append]
    rw [splitSep.eq_3 c1 ((c2 :: rest) ++ ':' :: ':' :: u) (by
      intro r' hc1 hc2
      rw [List.cons_append] at hc2
      have : c2 = ':' := (List.cons.injEq _ _ _ _ ▸ hc2).1
      exact hcc ⟨hc1, this⟩)]
    rw [hrec]

theorem splitSep_joinSep :
    ∀ (segs : List (List Char)), segs ≠ [] →
      (∀ s ∈ segs, pairFree s = true) →
      (∀ s ∈ segs.dropLast, s.getLast? ≠ some ':') →
      splitSep (joinSep segs) = segs := by
  intro segs
  induction segs with
  | nil => intro h; exact absurd rfl h
  | cons s0 rest ih =>
    intro _ hpf hlast
    cases rest with
    | nil =>
      rw [show joinSep [s0] = s0 from rfl]
      exact splitSep_of_pairFree s0 (hpf s0 (List.mem_cons_self _ _))
    | cons b t =>
      rw [show joinSep (s0 :: b :: t) = s0 ++ ':' :: ':' :: joinSep (b :: t) from rfl]
      rw [splitSep_append_sep s0 (joinSep (b :: t))
        (hpf s0 (List.mem_cons_self _ _))
        (hlast s0 (by rw [List.dropLast_cons_of_ne_nil (by simp)]; exact List.mem_cons_self _ _))]
      rw [ih (by simp)
        (fun s hs => hpf s (List.mem_cons_of_mem _ hs))
        (fun s hs => hlast s (by
          rw [List.dropLast_cons_of_ne_nil (by simp)]
          exact List.mem_cons_of_mem _ hs))]


theorem pySplitSep_ne_nil (s : String) : pySplitSep s ≠ [] := by
  unfold pySplitSep
  simp [splitSep_ne_nil]

theorem pySplitSep_insert (s : String) (protos : List String) (path : String)
    (hp : protos = (pySplitSep s).dropLast) (hq : path = (pySplitSep s).getLastD "") :
    pySplitSep (pyJoinSep (protos ++ ["filecache", path])) = protos ++ ["filecache", path] := by
  rcases List.exists_cons_of_ne_nil (splitSep_ne_nil s.data) with ⟨s0, ss0, hrw⟩
  have hsegs_ne : splitSep s.data ≠ [] := splitSep_ne_nil s.data
  -- identify protos and path at the char level
  have hprotos : protos.map String.data = (splitSep s.data).dropLast := by
    rw [hp]
    unfold pySplitSep
    rw [← List.map_dropLast]
    rw [List.map_map]
    exact (List.map_congr_left (fun a _ => rfl)).trans (List.map_id _)
  have hLex : ∃ L, (splitSep s.data).getLast? = some L := by
    rcases List.getLast?_eq_getLast_of_ne_nil hsegs_ne with h
    exact ⟨_, h⟩
  rcases hLex with ⟨L, hL⟩
  have hpath : path = String.mk L := by
    rw [hq]
    unfold pySplitSep
    rw [List.getLastD_eq_getLast?, List.getLast?_map, hL]
    rfl
  have hLmem : L ∈ splitSep s.data := List.mem_of_mem_getLast? hL
  have hjoin : (protos ++ ["filecache", path]).map String.data =
      (splitSep s.data).dropLast ++ [("filecache" : String).data, L] := by
    rw [List.map_append, hprotos, hpath]
    rfl
  have hsplitjoin : splitSep (joinSep ((splitSep s.data).dropLast ++ [("filecache" : String).data, L])) =
      (splitSep s.data).dropLast ++ [("filecache" : String).data, L] := by
    apply splitSep_joinSep
    · simp
    · intro seg hm
      rcases List.mem_append.mp hm with h1 | h2
      · exact splitSep_pairFree s.data seg (List.dropLast_subset _ h1)
      · rcases List.mem_cons.mp h2 with h3 | h4
        · rw [h3]; decide
        · have : seg = L := by simpa using h4
          rw [this]
          exact splitSep_pairFree s.data L hLmem
    · intro seg hm
      rw [List.dropLast_append_of_ne_nil _ (by simp)] at hm
      rcases List.mem_append.mp hm with h1 | h2
      · exact splitSep_dropLast_getLast s.data seg h1
      · have : seg = ("filecache" : String).data := by simpa using h2
        rw [this]
        decide
  unfold pySplitSep pyJoinSep
  rw [show (String.mk (joinSep ((protos ++ ["filecache", path]).map String.data))).data =
      joinSep ((protos ++ ["filecache", path]).map String.data) from rfl]
  rw [hjoin, hsplitjoin]
  rw [List.map_append, hp, hpath]
  unfold pySplitSep
  rw [← List.map_dropLast]
  rfl

theorem lastClause_iff (l : List String) :
    (l = [] ∨ "filecache" ≠ l.getLastD "") ↔ l.getLast? ≠ some "filecache" := by
  cases hL : l.getLast? with
  | none =>
    constructor
    · intro _
      simp
    · intro _
      right
      rw [List.getLastD_eq_getLast?, hL]
      decide
  | some x =>
    rw [List.getLastD_eq_getLast?, hL]
    simp only [Option.getD_some, ne_eq, Option.some.injEq]
    constructor
    · rintro (h1 | h2)
      · rw [h1] at hL
        simp at hL
      · intro he
        exact h2 (by rw [he])
    · intro hr
      exact Or.inr (fun he => hr (by rw [he]))

/-- C3: the path preprocessor agrees, on every input, with the definition
transcribed from the spec's words — the caching prefix is inserted exactly
when HTTP caching is on, the bare address is an `http(s)://` URL and
`filecache` is not already the innermost transport; every other string and
every buffer passes through unchanged, and the function is total (never
raises). -/
theorem c3_preprocessing_matches_spec :
    ∀ (cacheHttp : Bool) (loc : Loc) (kw : PKw),
      preprocessing cacheHttp loc kw = preprocessingSpec cacheHttp loc kw := by
  intro cache loc kw
  cases loc with
  | buffer b => rfl
  | str s =>
    simp only [preprocessing, preprocessingSpec]
    refine Prod.ext ?_ rfl
    exact if_congr
      (and_congr_right fun _ => and_congr_right fun _ => lastClause_iff _)
      rfl rfl

theorem preprocessing_str (cache : Bool) (s : String) (kw : PKw) :
    preprocessing cache (.str s) kw =
      (if cache = true ∧
            (pyStartsWith ((pySplitSep s).getLastD "") "https://" ∨
              pyStartsWith ((pySplitSep s).getLastD "") "http://") ∧
            ((pySplitSep s).dropLast = [] ∨ "filecache" ≠ (pySplitSep s).dropLast.getLastD "")
        then Loc.str (pyJoinSep ((pySplitSep s).dropLast ++ ["filecache", (pySplitSep s).getLastD ""]))
        else Loc.str s,
       if (pySplitSep s).dropLast.any (fun p => pyStartsWith p "tar://") then ⟨some none⟩ else kw) := by
  rfl

theorem dropLast_insert (protos : List String) (path : String) :
    (protos ++ ["filecache", path]).dropLast = protos ++ ["filecache"] := by
  rw [List.dropLast_append_of_ne_nil _ (by simp)]
  rfl

theorem getLastD_insert (protos : List String) :
    (protos ++ ["filecache"]).getLastD "" = "filecache" := by
  rw [List.getLastD_eq_getLast?, List.getLast?_append_of_ne_nil _ (by simp)]
  rfl

/-- C10: `preprocessing` is idempotent — applying it to its own output
(locator and adjusted options) returns that output unchanged; in
particular the `filecache` prefix is inserted at most once, because after
one insertion it is the innermost transport prefix. -/
theorem any_insert (protos : List String) :
    (protos ++ ["filecache"]).any (fun p => pyStartsWith p "tar://") =
      protos.any (fun p => pyStartsWith p "tar://") := by
  rw [List.any_append]
  have h : (["filecache"] : List String).any (fun p => pyStartsWith p "tar://") = false := by decide
  rw [h, Bool.or_false]

theorem kw_idem (b : Bool) (kw : PKw) :
    (if b then (⟨some none⟩ : PKw) else (if b then ⟨some none⟩ else kw)) =
      (if b then (⟨some none⟩ : PKw) else kw) := by
  cases b <;> simp

theorem c10_preprocessing_idempotent :
    ∀ (cacheHttp : Bool) (loc : Loc) (kw : PKw),
      preprocessing cacheHttp (preprocessing cacheHttp loc kw).1 (preprocessing cacheHttp loc kw).2 =
        preprocessing cacheHttp loc kw := by
  intro cache loc kw
  cases loc with
  | buffer b => rfl
  | str s =>
    rw [preprocessing_str cache s kw]
    by_cases hcond : cache = true ∧
        (pyStartsWith ((pySplitSep s).getLastD "") "https://" ∨
          pyStartsWith ((pySplitSep s).getLastD "") "http://") ∧
        ((pySplitSep s).dropLast = [] ∨ "filecache" ≠ (pySplitSep s).dropLast.getLastD "")
    · rw [if_pos hcond]
      simp only []
      rw [preprocessing_str]
      rw [pySplitSep_insert s _ _ rfl rfl, dropLast_insert, getLastD_insert]
      rw [if_neg (by
        rintro ⟨-, -, h3 | h3⟩
        · simp at h3
        · exact h3 rfl)]
      rw [any_insert]
      exact Prod.ext rfl (kw_idem _ _)
    · rw [if_neg hcond]
      simp only []
      rw [preprocessing_str]
      rw [if_neg hcond]
      exact Prod.ext rfl (kw_idem _ _)

/-- C9: `read_gff3` rejects caller-supplied `comment` or `na_values`
options with the ValueError the spec calls ConfigError, and otherwise
always reads with the comment character fixed to `#` and the null
sentinel fixed to `.` (the values `readCore` is invoked with). -/
theorem c9_reader_options :
    ∀ (text : String) (ex : Bool) (kwargs : ReadKwargs),
      (kwargs.comment.isSome = true →
        read_gff3 text ex kwargs = .error (.valueError "Parameter 'comment' is not allowed")) ∧
      (kwargs.comment = none → kwargs.na_values.isSome = true →
        read_gff3 text ex kwargs = .error (.valueError "Parameter 'na_values' is not allowed")) ∧
      (kwargs.comment = none → kwargs.na_values = none →
        read_gff3 text ex kwargs = readCore '#' "." text (kwargs.names.getD GFF_COLUMNS) ex) := by
  intro text ex kwargs
  refine ⟨?_, ?_, ?_⟩
  · intro h
    unfold read_gff3
    rw [if_pos h]
  · intro h1 h2
    unfold read_gff3
    rw [if_neg (by simp [h1]), if_pos h2]
  · intro h1 h2
    unfold read_gff3
    rw [if_neg (by simp [h1]), if_neg (by simp [h2])]

/-- Witness for C9: a supplied `comment` option is rejected, and with no
overrides the sample text is read through the fixed `#` / `.` options. -/
theorem c9_reader_options_witness :
    ((⟨some "x", none, none⟩ : ReadKwargs).comment.isSome = true ∧
      read_gff3 "" false ⟨some "x", none, none⟩ =
        .error (.valueError "Parameter 'comment' is not allowed")) ∧
    (noKwargs.comment = none ∧ noKwargs.na_values = none ∧
      read_gff3 sampleText false noKwargs = readCore '#' "." sampleText GFF_COLUMNS false) :=
  ⟨⟨rfl, (c9_reader_options "" false ⟨some "x", none, none⟩).1 rfl⟩,
   ⟨rfl, rfl, (c9_reader_options sampleText false noKwargs).2.2 rfl rfl⟩⟩

theorem splitFirstEq_mem_of_some :
    ∀ (cs k v : List Char), splitFirstEq cs = (k, some v) → '=' ∈ cs := by
  intro cs
  induction cs with
  | nil =>
    intro k v h
    simp [splitFirstEq] at h
  | cons c rest ih =>
    intro k v h
    by_cases hc : c = '='
    · rw [hc]
      exact List.mem_cons_self _ _
    · rw [show splitFirstEq (c :: rest) =
          (c :: (splitFirstEq rest).1, (splitFirstEq rest).2) by
            simp [splitFirstEq, hc]] at h
      have h2 : (splitFirstEq rest).2 = some v := (Prod.mk.injEq _ _ _ _ ▸ h).2
      rcases hsp : splitFirstEq rest with ⟨k', o⟩
      rw [hsp] at h2
      simp only at h2
      subst h2
      exact List.mem_cons_of_mem _ (ih k' v hsp)

theorem decodePairs_malformed :
    ∀ (l : List (List Char)) (acc : List (String × String)),
      (∃ kv ∈ l, '=' ∉ kv) →
      decodePairs acc l =
        .error (.valueError "dictionary update sequence element #0 has length 1; 2 is required") := by
  intro l
  induction l with
  | nil =>
    intro acc h
    simp at h
  | cons kv rest ih =>
    intro acc h
    rcases hsp : splitFirstEq kv with ⟨k, o⟩
    cases o with
    | none =>
      simp [decodePairs, hsp]
    | some v =>
      have hkv : '=' ∈ kv := splitFirstEq_mem_of_some kv k v hsp
      rcases h with ⟨kv0, hmem, hno⟩
      rcases List.mem_cons.mp hmem with h1 | h2
      · subst h1
        exact absurd hkv hno
      · simp only [decodePairs, hsp]
        exact ih _ ⟨kv0, h2, hno⟩

/-- C8: decoding an attribute string one of whose `;`-separated pairs
contains no `=` separator raises the `dict(...)` ValueError — the decoder
never silently drops the malformed entry or continues past it. -/
theorem c8_malformed_pair_raises :
    ∀ (s : String), (∃ kv ∈ splitChar ';' s.data, '=' ∉ kv) →
      decodeAttrs (Cell.s s) =
        .error (.valueError "dictionary update sequence element #0 has length 1; 2 is required") := by
  intro s h
  exact decodePairs_malformed _ [] h

/-- Witness for C8: the second pair of `ID=gene1;ID2` lacks a separator,
and decoding fails with the ValueError. -/
theorem c8_malformed_pair_raises_witness :
    (∃ kv ∈ splitChar ';' ("ID=gene1;ID2" : String).data, '=' ∉ kv) ∧
    decodeAttrs (Cell.s "ID=gene1;ID2") =
      .error (.valueError "dictionary update sequence element #0 has length 1; 2 is required") :=
  ⟨by decide, c8_malformed_pair_raises "ID=gene1;ID2" (by decide)⟩

theorem splitChar_of_not_mem :
    ∀ (sep : Char) (cs : List Char), sep ∉ cs → splitChar sep cs = [cs] := by
  intro sep cs
  induction cs with
  | nil => intro _; rfl
  | cons c rest ih =>
    intro h
    have hc : c ≠ sep := fun he => h (he ▸ List.mem_cons_self _ _)
    have hrest : sep ∉ rest := fun hm => h (List.mem_cons_of_mem _ hm)
    simp only [splitChar, if_neg hc, ih hrest]

theorem splitChar_append :
    ∀ (sep : Char) (a u : List Char), sep ∉ a →
      splitChar sep (a ++ sep :: u) = a :: splitChar sep u := by
  intro sep a
  induction a with
  | nil =>
    intro u _
    simp [splitChar]
  | cons c rest ih =>
    intro u h
    have hc : c ≠ sep := fun he => h (he ▸ List.mem_cons_self _ _)
    have hrest : sep ∉ rest := fun hm => h (List.mem_cons_of_mem _ hm)
    rw [List.cons_append]
    simp only [splitChar, if_neg hc, ih u hrest]

theorem splitFirstEq_append :
    ∀ (k v : List Char), '=' ∉ k → splitFirstEq (k ++ '=' :: v) = (k, some v) := by
  intro k
  induction k with
  | nil =>
    intro v _
    simp [splitFirstEq]
  | cons c rest ih =>
    intro v h
    have hc : c ≠ '=' := fun he => h (he ▸ List.mem_cons_self _ _)
    have hrest : '=' ∉ rest := fun hm => h (List.mem_cons_of_mem _ hm)
    rw [List.cons_append]
    simp only [splitFirstEq, if_neg hc, ih v hrest]


theorem decodePairs_wellformed :
    ∀ (parts : List (String × String)) (acc : List (String × String)),
      (∀ p ∈ parts, '=' ∉ p.1.data) →
      decodePairs acc (parts.map (fun p => p.1.data ++ '=' :: p.2.data)) =
        .ok ((parts.map (fun p => (unquote p.1, unquote p.2))).foldl dictUpdate acc) := by
  intro parts
  induction parts with
  | nil =>
    intro acc _
    rfl
  | cons p rest ih =>
    intro acc h
    rw [List.map_cons]
    simp only [decodePairs, splitFirstEq_append p.1.data p.2.data (h p (List.mem_cons_self _ _))]
    rw [ih (dictUpdate acc (unquote (String.mk p.1.data), unquote (String.mk p.2.data)))
      (fun q hq => h q (List.mem_cons_of_mem _ hq))]
    rfl

theorem splitChar_joinPairs :
    ∀ (parts : List (String × String)), parts ≠ [] →
      (∀ p ∈ parts, ';' ∉ p.1.data ∧ ';' ∉ p.2.data) →
      splitChar ';' (joinPairsChars parts) = parts.map (fun p => p.1.data ++ '=' :: p.2.data) := by
  intro parts
  induction parts with
  | nil => intro h _; exact absurd rfl h
  | cons p rest ih =>
    intro _ h
    cases rest with
    | nil =>
      rw [show joinPairsChars [p] = p.1.data ++ '=' :: p.2.data from rfl]
      rw [splitChar_of_not_mem ';' _ (by
        intro hm
        rcases List.mem_append.mp hm with h1 | h2
        · exact (h p (List.mem_cons_self _ _)).1 h1
        · rcases List.mem_cons.mp h2 with h3 | h4
          · exact absurd h3.symm (by decide)
          · exact (h p (List.mem_cons_self _ _)).2 h4)]
      rfl
    | cons q rest' =>
      rw [show joinPairsChars (p :: q :: rest') =
          p.1.data ++ '=' :: p.2.data ++ ';' :: joinPairsChars (q :: rest') from rfl]
      rw [show p.1.data ++ '=' :: p.2.data ++ ';' :: joinPairsChars (q :: rest') =
          (p.1.data ++ '=' :: p.2.data) ++ ';' :: joinPairsChars (q :: rest') by
        rw [List.append_assoc]]
      rw [splitChar_append ';' _ _ (by
        intro hm
        rcases List.mem_append.mp hm with h1 | h2
        · exact (h p (List.mem_cons_self _ _)).1 h1
        · rcases List.mem_cons.mp h2 with h3 | h4
          · exact absurd h3.symm (by decide)
          · exact (h p (List.mem_cons_self _ _)).2 h4)]
      rw [ih (by simp) (fun q' hq' => h q' (List.mem_cons_of_mem _ hq'))]
      rfl

/-- C5: decoding a raw attribute string assembled from key/value pairs
(keys free of `;` and `=`, values free of `;` but possibly containing
`=`) splits on `;`, splits each pair on the FIRST `=` only, and
percent-decodes both key and value, accumulating them with Python `dict`
semantics; an absent (null) attribute cell decodes to the empty mapping. -/
theorem c5_decode :
    ∀ (parts : List (String × String)),
      parts ≠ [] →
      (∀ p ∈ parts, ';' ∉ p.1.data ∧ '=' ∉ p.1.data ∧ ';' ∉ p.2.data) →
      decodeAttrs (Cell.s (joinPairs parts)) =
        .ok ((parts.map (fun p => (unquote p.1, unquote p.2))).foldl dictUpdate []) ∧
      decodeAttrs Cell.na = .ok [] := by
  intro parts hne h
  constructor
  · show decodePairs [] (splitChar ';' (joinPairs parts).data) = _
    rw [show (joinPairs parts).data = joinPairsChars parts from rfl]
    rw [splitChar_joinPairs parts hne (fun p hp => ⟨(h p hp).1, (h p hp).2.2⟩)]
    exact decodePairs_wellformed parts [] (fun p hp => (h p hp).2.1)
  · rfl

/-- Witness for C5: two healthy pairs decode to the mapping with both
keys and the percent-escape in the second value decoded. -/
theorem c5_decode_witness :
    (([("ID", "gene1"), ("Dbxref", "NCBI%3A123")] : List (String × String)) ≠ [] ∧
      (∀ p ∈ ([("ID", "gene1"), ("Dbxref", "NCBI%3A123")] : List (String × String)),
        ';' ∉ p.1.data ∧ '=' ∉ p.1.data ∧ ';' ∉ p.2.data)) ∧
    decodeAttrs (Cell.s (joinPairs [("ID", "gene1"), ("Dbxref", "NCBI%3A123")])) =
      .ok (([("ID", "gene1"), ("Dbxref", "NCBI%3A123")].map
        (fun p => (unquote p.1, unquote p.2))).foldl dictUpdate []) ∧
    decodeAttrs Cell.na = .ok [] :=
  ⟨⟨by decide, by decide⟩,
   c5_decode [("ID", "gene1"), ("Dbxref", "NCBI%3A123")] (by decide) (by decide)⟩

theorem except_bind_ok {α β : Type} (a : α) (f : α → Except PyErr β) :
    (Except.ok a >>= f) = f a := rfl

theorem except_bind_error {α β : Type} (e : PyErr) (f : α → Except PyErr β) :
    ((Except.error e : Except PyErr α) >>= f) = Except.error e := rfl

theorem decCellE_incCellE (x x' : Cell) (h : decCellE x = .ok x') : incCellE x' = .ok x := by
  cases x with
  | na => simp [decCellE] at h; subst h; rfl
  | s v => simp [decCellE] at h
  | i n => simp [decCellE] at h; subst h; simp [incCellE, Int.sub_add_cancel]
  | f n => simp [decCellE] at h; subst h; simp [incCellE, Int.sub_add_cancel]

theorem mapRowAt_cons (f : Cell → Except PyErr Cell) (c : String) (cs : List String)
    (x : Cell) (xs : List Cell) (name : String) :
    mapRowAt f (c :: cs) (x :: xs) name =
      if c = name then (f x >>= fun x' => Except.ok (x' :: xs))
      else (mapRowAt f cs xs name >>= fun rest => Except.ok (x :: rest)) := rfl

theorem mapRowAt_inverse :
    ∀ (cols : List String) (r r' : List Cell) (name : String),
      mapRowAt decCellE cols r name = .ok r' →
      mapRowAt incCellE cols r' name = .ok r := by
  intro cols
  induction cols with
  | nil =>
    intro r r' name h
    cases r with
    | nil => simp [mapRowAt] at h; subst h; rfl
    | cons x xs => simp [mapRowAt] at h; subst h; rfl
  | cons c cs ih =>
    intro r r' name h
    cases r with
    | nil => simp [mapRowAt] at h; subst h; rfl
    | cons x xs =>
      by_cases hc : c = name
      · rw [mapRowAt_cons, if_pos hc] at h
        cases hdx : decCellE x with
        | error e => rw [hdx, except_bind_error] at h; simp at h
        | ok x' =>
          rw [hdx, except_bind_ok] at h
          simp at h
          subst h
          rw [mapRowAt_cons, if_pos hc, decCellE_incCellE x x' hdx, except_bind_ok]
      · rw [mapRowAt_cons, if_neg hc] at h
        cases hrec : mapRowAt decCellE cs xs name with
        | error e => rw [hrec, except_bind_error] at h; simp at h
        | ok rest' =>
          rw [hrec, except_bind_ok] at h
          simp at h
          subst h
          rw [mapRowAt_cons, if_neg hc, ih xs rest' name hrec, except_bind_ok]

theorem mapRowsE_inverse :
    ∀ (cols : List String) (rows rows' : List (List Cell)) (name : String),
      mapRowsE (fun r => mapRowAt decCellE cols r name) rows = .ok rows' →
      mapRowsE (fun r => mapRowAt incCellE cols r name) rows' = .ok rows := by
  intro cols rows
  induction rows with
  | nil =>
    intro rows' name h
    simp [mapRowsE] at h
    subst h
    rfl
  | cons r rs ih =>
    intro rows' name h
    rw [show mapRowsE (fun r => mapRowAt decCellE cols r name) (r :: rs) =
        (mapRowAt decCellE cols r name >>= fun r' =>
          mapRowsE (fun r => mapRowAt decCellE cols r name) rs >>= fun rs' =>
            Except.ok (r' :: rs')) from rfl] at h
    cases h1 : mapRowAt decCellE cols r name with
    | error e => rw [h1, except_bind_error] at h; simp at h
    | ok r' =>
      rw [h1, except_bind_ok] at h
      cases h2 : mapRowsE (fun r => mapRowAt decCellE cols r name) rs with
      | error e => rw [h2, except_bind_error] at h; simp at h
      | ok rs' =>
        rw [h2, except_bind_ok] at h
        simp at h
        subst h
        rw [show mapRowsE (fun r => mapRowAt incCellE cols r name) (r' :: rs') =
            (mapRowAt incCellE cols r' name >>= fun a =>
              mapRowsE (fun r => mapRowAt incCellE cols r name) rs' >>= fun b =>
                Except.ok (a :: b)) from rfl]
        rw [mapRowAt_inverse cols r r' name h1, except_bind_ok,
          ih rs' name h2, except_bind_ok]

theorem mapColE_inverse (df d : DFrame) (h : mapColE df "start" decCellE = .ok d) :
    mapColE d "start" incCellE = .ok df := by
  unfold mapColE at h ⊢
  by_cases hmem : "start" ∈ df.cols
  · rw [if_pos hmem] at h
    cases hrows : mapRowsE (fun r => mapRowAt decCellE df.cols r "start") df.rows with
    | error e => rw [hrows, except_bind_error] at h; simp at h
    | ok rows' =>
      rw [hrows, except_bind_ok] at h
      simp at h
      subst h
      rw [if_pos (by simpa using hmem)]
      have : mapRowsE (fun r => mapRowAt incCellE df.cols r "start") rows' = .ok df.rows :=
        mapRowsE_inverse df.cols df.rows rows' "start" hrows
      simp only [this, except_bind_ok]
  · rw [if_neg hmem] at h
    simp at h

theorem mapRowAt_lookup_other :
    ∀ (cols : List String) (r r' : List Cell) (name c : String)
      (f : Cell → Except PyErr Cell),
      mapRowAt f cols r name = .ok r' → c ≠ name →
      lookupCell cols r' c = lookupCell cols r c := by
  intro cols
  induction cols with
  | nil =>
    intro r r' name c f h hc
    cases r with
    | nil => simp [mapRowAt] at h; subst h; rfl
    | cons x xs => simp [mapRowAt] at h; subst h; rfl
  | cons c0 cs ih =>
    intro r r' name c f h hc
    cases r with
    | nil => simp [mapRowAt] at h; subst h; rfl
    | cons x xs =>
      by_cases h0 : c0 = name
      · rw [mapRowAt_cons, if_pos h0] at h
        cases hdx : f x with
        | error e => rw [hdx, except_bind_error] at h; simp at h
        | ok x' =>
          rw [hdx, except_bind_ok] at h
          simp at h
          subst h
          have hne : c0 ≠ c := fun he => hc (he ▸ h0)
          simp only [lookupCell, if_neg hne]
      · rw [mapRowAt_cons, if_neg h0] at h
        cases hrec : mapRowAt f cs xs name with
        | error e => rw [hrec, except_bind_error] at h; simp at h
        | ok rest' =>
          rw [hrec, except_bind_ok] at h
          simp at h
          subst h
          by_cases hcc : c0 = c
          · simp only [lookupCell, if_pos hcc]
          · simp only [lookupCell, if_neg hcc]
            exact ih xs rest' name c f hrec hc

theorem mapColE_getColCells_other (df d : DFrame) (c : String)
    (h : mapColE df "start" decCellE = .ok d) (hc : c ≠ "start") :
    getColCells d c = getColCells df c := by
  unfold mapColE at h
  by_cases hmem : "start" ∈ df.cols
  · rw [if_pos hmem] at h
    cases hrows : mapRowsE (fun r => mapRowAt decCellE df.cols r "start") df.rows with
    | error e => rw [hrows, except_bind_error] at h; simp at h
    | ok rows' =>
      rw [hrows, except_bind_ok] at h
      simp at h
      subst h
      unfold getColCells
      simp only
      by_cases hcm : c ∈ df.cols
      · rw [if_pos hcm, if_pos hcm]
        have hrowwise : ∀ (rows rows' : List (List Cell)),
            mapRowsE (fun r => mapRowAt decCellE df.cols r "start") rows = .ok rows' →
            rows'.map (fun r => lookupCell df.cols r c) =
              rows.map (fun r => lookupCell df.cols r c) := by
          intro rows
          induction rows with
          | nil => intro rows' hh; simp [mapRowsE] at hh; subst hh; rfl
          | cons r rs ihr =>
            intro rows' hh
            rw [show mapRowsE (fun r => mapRowAt decCellE df.cols r "start") (r :: rs) =
                (mapRowAt decCellE df.cols r "start" >>= fun r' =>
                  mapRowsE (fun r => mapRowAt decCellE df.cols r "start") rs >>= fun rs' =>
                    Except.ok (r' :: rs')) from rfl] at hh
            cases h1 : mapRowAt decCellE df.cols r "start" with
            | error e => rw [h1, except_bind_error] at hh; simp at hh
            | ok r' =>
              rw [h1, except_bind_ok] at hh
              cases h2 : mapRowsE (fun r => mapRowAt decCellE df.cols r "start") rs with
              | error e => rw [h2, except_bind_error] at hh; simp at hh
              | ok rs' =>
                rw [h2, except_bind_ok] at hh
                simp at hh
                subst hh
                rw [List.map_cons, List.map_cons,
                  mapRowAt_lookup_other df.cols r r' "start" c decCellE h1 hc, ihr rs' h2]
        rw [hrowwise df.rows rows' hrows]
      · rw [if_neg hcm, if_neg hcm]
  · rw [if_neg hmem] at h
    simp at h

/-- C6: coordinate conversion — the reader subtracts exactly 1 from the
`start` column (`readCore` with the parsed table), every other column
(including `end`) is untouched, `to_gff3`'s `+= 1` restores the parsed
table exactly, and the internal half-open width `end - start` equals
on-disk `end - start + 1`. -/
theorem c6_coordinate_roundtrip :
    ∀ (cc : Char) (na text : String) (names : List String) (raw d : DFrame),
      parseTable cc na text names = .ok raw →
      mapColE raw "start" decCellE = .ok d →
      readCore cc na text names false = .ok ⟨d, names⟩ ∧
      mapColE d "start" incCellE = .ok raw ∧
      (∀ c, c ≠ "start" → getColCells d c = getColCells raw c) ∧
      (∀ s e : Int, decCellE (Cell.i s) = .ok (Cell.i (s - 1)) ∧
        incCellE (Cell.i (s - 1)) = .ok (Cell.i s) ∧ e - (s - 1) = e - s + 1) := by
  intro cc na text names raw d h1 h2
  refine ⟨?_, mapColE_inverse raw d h2,
    fun c hc => mapColE_getColCells_other raw d c h2 hc, ?_⟩
  · unfold readCore
    rw [h1, except_bind_ok, h2, except_bind_ok]
    rw [if_neg (by simp), except_bind_ok]
  · intro s e
    exact ⟨rfl, by simp [incCellE, Int.sub_add_cancel], by omega⟩

/-- Witness for C6 at the sample text: the parsed table holds on-disk
start 100, end 200; the reader's table holds 99 and 200. -/
theorem c6_coordinate_roundtrip_witness :
    (parseTable '#' "." sampleText GFF_COLUMNS =
        .ok ⟨GFF_COLUMNS,
          [[Cell.s "chr1", Cell.na, Cell.s "gene", Cell.i 100, Cell.i 200, Cell.na,
            Cell.s "+", Cell.na, Cell.s "ID=gene1;Name=TestGene;Dbxref=NCBI:123"]]⟩ ∧
      mapColE ⟨GFF_COLUMNS,
          [[Cell.s "chr1", Cell.na, Cell.s "gene", Cell.i 100, Cell.i 200, Cell.na,
            Cell.s "+", Cell.na, Cell.s "ID=gene1;Name=TestGene;Dbxref=NCBI:123"]]⟩
        "start" decCellE =
        .ok ⟨GFF_COLUMNS,
          [[Cell.s "chr1", Cell.na, Cell.s "gene", Cell.i 99, Cell.i 200, Cell.na,
            Cell.s "+", Cell.na, Cell.s "ID=gene1;Name=TestGene;Dbxref=NCBI:123"]]⟩) ∧
    (readCore '#' "." sampleText GFF_COLUMNS false =
        .ok ⟨⟨GFF_COLUMNS,
          [[Cell.s "chr1", Cell.na, Cell.s "gene", Cell.i 99, Cell.i 200, Cell.na,
            Cell.s "+", Cell.na, Cell.s "ID=gene1;Name=TestGene;Dbxref=NCBI:123"]]⟩,
          GFF_COLUMNS⟩ ∧
      mapColE ⟨GFF_COLUMNS,
          [[Cell.s "chr1", Cell.na, Cell.s "gene", Cell.i 99, Cell.i 200, Cell.na,
            Cell.s "+", Cell.na, Cell.s "ID=gene1;Name=TestGene;Dbxref=NCBI:123"]]⟩
        "start" incCellE =
        .ok ⟨GFF_COLUMNS,
          [[Cell.s "chr1", Cell.na, Cell.s "gene", Cell.i 100, Cell.i 200, Cell.na,
            Cell.s "+", Cell.na, Cell.s "ID=gene1;Name=TestGene;Dbxref=NCBI:123"]]⟩ ∧
      (∀ c, c ≠ "start" →
        getColCells ⟨GFF_COLUMNS,
            [[Cell.s "chr1", Cell.na, Cell.s "gene", Cell.i 99, Cell.i 200, Cell.na,
              Cell.s "+", Cell.na, Cell.s "ID=gene1;Name=TestGene;Dbxref=NCBI:123"]]⟩ c =
          getColCells ⟨GFF_COLUMNS,
            [[Cell.s "chr1", Cell.na, Cell.s "gene", Cell.i 100, Cell.i 200, Cell.na,
              Cell.s "+", Cell.na, Cell.s "ID=gene1;Name=TestGene;Dbxref=NCBI:123"]]⟩ c) ∧
      (∀ s e : Int, decCellE (Cell.i s) = .ok (Cell.i (s - 1)) ∧
        incCellE (Cell.i (s - 1)) = .ok (Cell.i s) ∧ e - (s - 1) = e - s + 1)) :=
  ⟨⟨rfl, rfl⟩, c6_coordinate_roundtrip '#' "." sampleText GFF_COLUMNS _ _ rfl rfl⟩

theorem lookupCell_map_self :
    ∀ (cols : List String) (f : String → Cell) (c : String),
      cols.Nodup → c ∈ cols → lookupCell cols (cols.map f) c = f c := by
  intro cols
  induction cols with
  | nil =>
    intro f c _ hc
    simp at hc
  | cons c0 cs ih =>
    intro f c hnd hc
    rw [List.map_cons]
    by_cases h0 : c0 = c
    · simp [lookupCell, h0]
    · simp only [lookupCell, if_neg h0]
      exact ih f c (List.Nodup.of_cons hnd) (by
        rcases List.mem_cons.mp hc with h1 | h2
        · exact absurd h1.symm h0
        · exact h2)

theorem foldl_insertNew_nodup :
    ∀ (d : List (String × String)) (acc : List String),
      acc.Nodup →
      (d.foldl (fun acc p => if p.1 ∈ acc then acc else acc ++ [p.1]) acc).Nodup := by
  intro d
  induction d with
  | nil => intro acc h; exact h
  | cons p rest ih =>
    intro acc h
    rw [List.foldl_cons]
    by_cases hp : p.1 ∈ acc
    · rw [if_pos hp]
      exact ih acc h
    · rw [if_neg hp]
      exact ih _ (by
        rw [List.nodup_append]
        exact ⟨h, List.nodup_singleton _, by simpa using hp⟩)

theorem firstSeenKeys_nodup (dicts : List (List (String × String))) :
    (firstSeenKeys dicts).Nodup := by
  unfold firstSeenKeys
  have general : ∀ (ds : List (List (String × String))) (acc : List String), acc.Nodup →
      (ds.foldl (fun acc d => d.foldl (fun acc p => if p.1 ∈ acc then acc else acc ++ [p.1]) acc)
        acc).Nodup := by
    intro ds
    induction ds with
    | nil => intro acc h; exact h
    | cons d rest ih =>
      intro acc h
      rw [List.foldl_cons]
      exact ih _ (foldl_insertNew_nodup d acc h)
  exact general dicts [] List.nodup_nil

/-- C4 amended: for any sequence of attribute cells that decode cleanly,
the explode step produces exactly the union of decoded keys in
first-seen order (no canonical-priority reordering), minus keys that
collide with positional column names; a row that lacks a key gets the
null cell `.na`, not an empty string, and a present key keeps its decoded
string value. -/
theorem c4_explode_first_seen :
    ∀ (names : List String) (attrsCol : List Cell) (dicts : List (List (String × String))),
      attrsCol.mapM decodeAttrs = .ok dicts →
      explodeSeries names attrsCol =
        .ok ⟨(firstSeenKeys dicts).filter (fun c => c ∉ names),
             dicts.map (fun d =>
               ((firstSeenKeys dicts).filter (fun c => c ∉ names)).map
                 (fun c =>
                   match d.lookup c with
                   | some v => Cell.s v
                   | none => Cell.na))⟩ := by
  intro names attrsCol dicts h
  unfold explodeSeries
  rw [h, except_bind_ok]
  unfold selectSub jsonNormalize
  simp only [Except.ok.injEq, DFrame.mk.injEq]
  refine ⟨trivial, ?_⟩
  rw [List.map_map]
  refine List.map_congr_left ?_
  intro d _
  simp only [Function.comp]
  refine List.map_congr_left ?_
  intro c hcmem
  have hc : c ∈ firstSeenKeys dicts := List.mem_of_mem_filter hcmem
  exact lookupCell_map_self (firstSeenKeys dicts)
    (fun c => match d.lookup c with | some v => Cell.s v | none => Cell.na) c
    (firstSeenKeys_nodup dicts) hc

/-- Witness for C4: two rows, one of them null; the columns come out in
first-seen order `Name, ID` and the null row gets `.na` cells. -/
theorem c4_explode_first_seen_witness :
    ([Cell.s "Name=x;ID=y", Cell.na].mapM decodeAttrs =
      .ok [[("Name", "x"), ("ID", "y")], []]) ∧
    explodeSeries GFF_COLUMNS [Cell.s "Name=x;ID=y", Cell.na] =
      .ok ⟨(firstSeenKeys [[("Name", "x"), ("ID", "y")], []]).filter
            (fun c => c ∉ GFF_COLUMNS),
           [[("Name", "x"), ("ID", "y")], []].map (fun d =>
             ((firstSeenKeys [[("Name", "x"), ("ID", "y")], []]).filter
                 (fun c => c ∉ GFF_COLUMNS)).map
               (fun c =>
                 match d.lookup c with
                 | some v => Cell.s v
                 | none => Cell.na))⟩ :=
  ⟨rfl, c4_explode_first_seen GFF_COLUMNS [Cell.s "Name=x;ID=y", Cell.na]
    [[("Name", "x"), ("ID", "y")], []] rfl⟩
